import Mathlib

/-!
Shallow embedding of casadi's replicated-evaluation ("map") operator,
`src/casadi/core/function/map.cpp` (classes `MapBase`, `Map`, `MapOmp`).

Modelling conventions:
* A pointer is a `Nat`; the null pointer is `0`, matching the literal `0`
  the source assigns for null (`arg[j] ? ... : 0`).
* Memory is a total function `Nat → α`; the value type `α` is generic, which
  mirrors the C++ template `Map::evalGen<T>` instantiated at `double`,
  `SXElem` and `bvec_t`.
* The base unit `f_` is an external collaborator (its class is not part of
  the source file): its structural data (arities, nonzero counts, scratch
  sizes) is the structure `BaseUnit`, and one of its evaluation entry points
  is the structure `UnitSem`, modelled from the spec: it reads `nnz_in j`
  elements from each input pointer, computes output blocks as a pure
  function of the input blocks, writes `nnz_out j` elements through each
  non-null output pointer, and reports failure (a C++ exception, which
  aborts the caller's loop) as `Except.error`.
-/

namespace CasadiMap

/-- A pointer: a flat address. `0` is the null pointer. -/
abbrev Ptr := Nat

/-- Memory holding values of type `α` at every address. -/
abbrev Mem (α : Type) := Nat → α

/-- Structural data of the base unit `f_` (external collaborator, §6 of the
spec): arities, per-slot nonzero counts and scratch sizes. -/
structure BaseUnit where
  n_in : Nat
  n_out : Nat
  nnz_in : Nat → Nat
  nnz_out : Nat → Nat
  sz_arg : Nat
  sz_res : Nat
  sz_iw : Nat
  sz_w : Nat

/-- Modelled from the spec: one evaluation entry point of the base unit
(numeric, symbolic or sparsity-forward), as a pure function from the list of
input blocks to the list of output blocks, plus a failure predicate. -/
structure UnitSem (α : Type) where
  fval : List (List α) → List (List α)
  fails : List (List α) → Bool

/-- Read `len` consecutive elements starting at address `p`. -/
def readBlock (m : Mem α) (p len : Nat) : List α :=
  (List.range len).map fun k => m (p + k)

/-- Overwrite the block starting at `p` with the elements of `xs`. -/
def writeBlock [Inhabited α] (m : Mem α) (p : Nat) (xs : List α) : Mem α :=
  fun a => if p ≤ a ∧ a < p + xs.length then xs.getD (a - p) default else m a

/-- Write a list of (pointer, block) pairs in order, skipping null pointers
(a null output pointer is never dereferenced). -/
def writeBlocks [Inhabited α] (m : Mem α) : List (Nat × List α) → Mem α
  | [] => m
  | (p, xs) :: rest => writeBlocks (if p = 0 then m else writeBlock m p xs) rest

/-- Modelled from the spec: the input blocks the base unit reads through the
argument-pointer frame it is handed. -/
def BaseUnit.ins (f : BaseUnit) (argF : List Nat) (m : Mem α) : List (List α) :=
  (List.range f.n_in).map fun j => readBlock m (argF.getD j 0) (f.nnz_in j)

/-- Modelled from the spec: the (pointer, block) write list of one base-unit
invocation: output block `j` goes through result-frame pointer `j`. -/
def BaseUnit.outFrames (f : BaseUnit) (resF : List Nat) (outs : List (List α)) :
    List (Nat × List α) :=
  (List.range f.n_out).map fun j => (resF.getD j 0, (outs.getD j []).take (f.nnz_out j))

/-- Modelled from the spec: one invocation of the base unit, `f_(arg1, res1,
iw, w, 0)` in the source: read the input blocks, fail or write every non-null
output block. The scratch regions do not influence the result (the base unit
is pure), so they are not threaded here; their offsets are recorded by the
`Frame` functions below. -/
def BaseUnit.call [Inhabited α] (f : BaseUnit) (s : UnitSem α)
    (argF resF : List Nat) (m : Mem α) : Except Unit (Mem α) :=
  let ins := f.ins argF m
  if s.fails ins then .error () else .ok (writeBlocks m (f.outFrames resF (s.fval ins)))

/-! ## Serial strategy (`Map`), map.cpp lines 56-149 -/

/-- The per-replica argument-pointer frame built by `Map::evalGen`
(map.cpp lines 73-75): `arg1[j] = arg[j] ? arg[j]+i*f_.nnz_in(j) : 0`. -/
def Map.serialArgPtrs (f : BaseUnit) (arg : List Nat) (i : Nat) : List Nat :=
  (List.range f.n_in).map fun j =>
    if arg.getD j 0 ≠ 0 then arg.getD j 0 + i * f.nnz_in j else 0

/-- The per-replica result-pointer frame built by `Map::evalGen`
(map.cpp lines 76-78): `res1[j] = res[j] ? res[j]+i*f_.nnz_out(j) : 0`. -/
def Map.serialResPtrs (f : BaseUnit) (res : List Nat) (i : Nat) : List Nat :=
  (List.range f.n_out).map fun j =>
    if res.getD j 0 ≠ 0 then res.getD j 0 + i * f.nnz_out j else 0

/-- The loop of `Map::evalGen` (map.cpp lines 72-80), structurally recursive
on the number `r` of replicas still to run, `i` being the current loop
index: build the frames for replica `i`, invoke the base unit, continue with
the next replica.  A base-unit failure (a thrown C++ exception) aborts the
remaining replicas. -/
def Map.evalLoop [Inhabited α] (f : BaseUnit) (s : UnitSem α)
    (arg res : List Nat) : Nat → Nat → Mem α → Except Unit (Mem α)
  | 0, _, m => .ok m
  | r + 1, i, m =>
    match f.call s (Map.serialArgPtrs f arg i) (Map.serialResPtrs f res i) m with
    | .error e => .error e
    | .ok m2 => Map.evalLoop f s arg res r (i + 1) m2

/-- `Map::evalGen` (map.cpp lines 67-81): the serial replica loop over
replicas `0..n-1`.  `Map::eval` (line 147), `Map::eval_sx` (line 83) and
`Map::sp_fwd` (line 87) all delegate to this one template. -/
def Map.evalGen [Inhabited α] (f : BaseUnit) (s : UnitSem α) (n : Nat)
    (arg res : List Nat) (m : Mem α) : Except Unit (Mem α) :=
  Map.evalLoop f s arg res n 0 m

/-- The list of replica indices the serial loop actually invokes the base
unit for, in order (mirrors `Map::evalGen`; the loop stops after a failing
replica). -/
def Map.invokedLoop [Inhabited α] (f : BaseUnit) (s : UnitSem α)
    (arg res : List Nat) : Nat → Nat → Mem α → List Nat
  | 0, _, _ => []
  | r + 1, i, m =>
    i :: match f.call s (Map.serialArgPtrs f arg i) (Map.serialResPtrs f res i) m with
      | .error _ => []
      | .ok m2 => Map.invokedLoop f s arg res r (i + 1) m2

/-- Replica indices invoked by in-process serial evaluation of `n` replicas. -/
def Map.serialInvoked [Inhabited α] (f : BaseUnit) (s : UnitSem α) (n : Nat)
    (arg res : List Nat) (m : Mem α) : List Nat :=
  Map.invokedLoop f s arg res n 0 m

/-- The index of the first replica whose base-unit invocation fails in the
serial loop, if any (mirrors the loop of `Map::evalGen`). -/
def Map.firstFailLoop [Inhabited α] (f : BaseUnit) (s : UnitSem α)
    (arg res : List Nat) : Nat → Nat → Mem α → Option Nat
  | 0, _, _ => none
  | r + 1, i, m =>
    match f.call s (Map.serialArgPtrs f arg i) (Map.serialResPtrs f res i) m with
    | .error _ => some i
    | .ok m2 => Map.firstFailLoop f s arg res r (i + 1) m2

/-- First failing replica of the serial loop over `n` replicas. -/
def Map.firstFailure [Inhabited α] (f : BaseUnit) (s : UnitSem α) (n : Nat)
    (arg res : List Nat) (m : Mem α) : Option Nat :=
  Map.firstFailLoop f s arg res n 0 m

/-- The per-replica argument-pointer frame built by `Map::sp_rev`
(map.cpp lines 96-98); textually the same rule as `Map::evalGen`. -/
def Map.spRevArgPtrs (f : BaseUnit) (arg : List Nat) (i : Nat) : List Nat :=
  (List.range f.n_in).map fun j =>
    if arg.getD j 0 ≠ 0 then arg.getD j 0 + i * f.nnz_in j else 0

/-- The per-replica result-pointer frame built by `Map::sp_rev`
(map.cpp lines 99-101). -/
def Map.spRevResPtrs (f : BaseUnit) (res : List Nat) (i : Nat) : List Nat :=
  (List.range f.n_out).map fun j =>
    if res.getD j 0 ≠ 0 then res.getD j 0 + i * f.nnz_out j else 0

/-- `Map::sp_rev` (map.cpp lines 91-104): the same replica loop, but each
replica invokes the base unit's reverse sparsity-propagation entry point
`f_->sp_rev`, here an abstract memory transformer `r` taking the two
pointer frames (reverse propagation updates both seeds, so it transforms
the whole memory). -/
def Map.spRevLoop (f : BaseUnit) (rv : List Nat → List Nat → Mem α → Mem α)
    (arg res : List Nat) : Nat → Nat → Mem α → Mem α
  | 0, _, m => m
  | r + 1, i, m =>
    Map.spRevLoop f rv arg res r (i + 1)
      (rv (Map.spRevArgPtrs f arg i) (Map.spRevResPtrs f res i) m)

/-- `Map::sp_rev` over the whole replica range `0..n-1`. -/
def Map.sp_rev (f : BaseUnit) (rv : List Nat → List Nat → Mem α → Mem α)
    (n : Nat) (arg res : List Nat) (m : Mem α) : Mem α :=
  Map.spRevLoop f rv arg res n 0 m

/-- Semantics of the source code emitted by `Map::generateBody`
(map.cpp lines 110-127), from loop index `i`: the emitted loop builds the
same frames as `Map::evalGen` (lines 118-123 print exactly the
`arg[j] ? arg[j]+i*nnz : 0` rule) and emits
`if (f(arg1, res1, iw, w)) return 1;` (line 125), so a failing replica makes
the generated function return 1 at once; otherwise the loop falls through
and the function returns 0. -/
def Map.genBodyLoop [Inhabited α] (f : BaseUnit) (s : UnitSem α)
    (arg res : List Nat) : Nat → Nat → Mem α → Nat × Mem α
  | 0, _, m => (0, m)
  | r + 1, i, m =>
    match f.call s (Map.serialArgPtrs f arg i) (Map.serialResPtrs f res i) m with
    | .error _ => (1, m)
    | .ok m2 => Map.genBodyLoop f s arg res r (i + 1) m2

/-- Return flag and final memory of the code emitted by `Map::generateBody`,
run on the whole replica range. -/
def Map.genBody [Inhabited α] (f : BaseUnit) (s : UnitSem α) (n : Nat)
    (arg res : List Nat) (m : Mem α) : Nat × Mem α :=
  Map.genBodyLoop f s arg res n 0 m

/-- Replica indices whose base-unit call the code emitted by
`Map::generateBody` executes (the emitted `return 1` stops the loop after a
failing replica, exactly like the in-process loop). -/
def Map.genInvokedLoop [Inhabited α] (f : BaseUnit) (s : UnitSem α)
    (arg res : List Nat) : Nat → Nat → Mem α → List Nat
  | 0, _, _ => []
  | r + 1, i, m =>
    i :: match f.call s (Map.serialArgPtrs f arg i) (Map.serialResPtrs f res i) m with
      | .error _ => []
      | .ok m2 => Map.genInvokedLoop f s arg res r (i + 1) m2

/-- Replica indices invoked by the emitted serial code over `n` replicas. -/
def Map.genInvoked [Inhabited α] (f : BaseUnit) (s : UnitSem α) (n : Nat)
    (arg res : List Nat) (m : Mem α) : List Nat :=
  Map.genInvokedLoop f s arg res n 0 m

/-! ## Parallel strategy (`MapOmp`), map.cpp lines 151-212 -/

/-- The per-replica argument-pointer frame built by the non-OpenMP branch of
`MapOmp::eval` (map.cpp lines 163-165): `arg_i[j] = arg[j]+i*f_.nnz_in(j);`
— note: no null check on the input pointer, unlike the serial rule. -/
def MapOmp.parArgPtrs (f : BaseUnit) (arg : List Nat) (i : Nat) : List Nat :=
  (List.range f.n_in).map fun j => arg.getD j 0 + i * f.nnz_in j

/-- The per-replica result-pointer frame built by the non-OpenMP branch of
`MapOmp::eval` (map.cpp lines 167-169): `res_i[j] = res[j] ? res[j]+i*nnz : 0`. -/
def MapOmp.parResPtrs (f : BaseUnit) (res : List Nat) (i : Nat) : List Nat :=
  (List.range f.n_out).map fun j =>
    if res.getD j 0 ≠ 0 then res.getD j 0 + i * f.nnz_out j else 0

/-- The complete calling frame handed to one replica: where the replica's
input/output pointer arrays are built inside the caller's `arg`/`res` pointer
arrays, which scratch offsets it gets, and the pointer frames themselves. -/
structure Frame where
  argWin : Nat
  resWin : Nat
  iwOff : Nat
  wOff : Nat
  argPtrs : List Nat
  resPtrs : List Nat
  deriving Repr

/-- The frame `Map::evalGen` hands replica `i` (map.cpp lines 70-79): the
pointer arrays are built in the shared window right past the map's own
`n_in`/`n_out` pointers (`arg1 = arg+n_in()`, `res1 = res+n_out()`), and the
whole scratch (`iw`, `w` at offset 0) is reused by every replica. -/
def Map.frame (f : BaseUnit) (arg res : List Nat) (i : Nat) : Frame :=
  ⟨f.n_in, f.n_out, 0, 0, Map.serialArgPtrs f arg i, Map.serialResPtrs f res i⟩

/-- The frame the non-OpenMP branch of `MapOmp::eval` hands replica `i`
(map.cpp lines 162-171): `arg_i = arg + n_in_ + sz_arg*i`,
`res_i = res + n_out_ + sz_res*i`, `iw_i = iw + i*sz_iw`, `w_i = w + i*sz_w`
— an exclusive, N-scaled slice per replica. -/
def MapOmp.frameSeq (f : BaseUnit) (arg res : List Nat) (i : Nat) : Frame :=
  ⟨f.n_in + f.sz_arg * i, f.n_out + f.sz_res * i, i * f.sz_iw, i * f.sz_w,
    MapOmp.parArgPtrs f arg i, MapOmp.parResPtrs f res i⟩

/-- The frame `MapOmp::eval` hands replica `i`, as a function of whether the
translation unit was compiled with `WITH_OPENMP` (map.cpp lines 154-175):
under `#ifdef WITH_OPENMP` it delegates wholesale to `Map::eval`, i.e. the
serial shared frame; only in the `#else` branch does it build the N-scaled
exclusive frame. -/
def MapOmp.frame (withOpenmp : Bool) (f : BaseUnit) (arg res : List Nat)
    (i : Nat) : Frame :=
  if withOpenmp then Map.frame f arg res i else MapOmp.frameSeq f arg res i

/-- The loop of the non-OpenMP branch of `MapOmp::eval` (map.cpp lines
161-173), executed sequentially (without OpenMP the `#pragma omp` is inert):
each replica is invoked on the N-scaled frame.  A base-unit failure
(exception) aborts the remaining replicas of the sequential loop. -/
def MapOmp.evalSeqLoop [Inhabited α] (f : BaseUnit) (s : UnitSem α)
    (arg res : List Nat) : Nat → Nat → Mem α → Except Unit (Mem α)
  | 0, _, m => .ok m
  | r + 1, i, m =>
    match f.call s (MapOmp.parArgPtrs f arg i) (MapOmp.parResPtrs f res i) m with
    | .error e => .error e
    | .ok m2 => MapOmp.evalSeqLoop f s arg res r (i + 1) m2

/-- The non-OpenMP branch of `MapOmp::eval`, over replicas `0..n-1`. -/
def MapOmp.evalSeq [Inhabited α] (f : BaseUnit) (s : UnitSem α) (n : Nat)
    (arg res : List Nat) (m : Mem α) : Except Unit (Mem α) :=
  MapOmp.evalSeqLoop f s arg res n 0 m

/-- `MapOmp::eval` (map.cpp lines 154-175): under `#ifdef WITH_OPENMP` it
calls `Map::eval` (the serial loop, shared frames); otherwise it runs the
N-scaled sequential loop. -/
def MapOmp.eval [Inhabited α] (withOpenmp : Bool) (f : BaseUnit) (s : UnitSem α)
    (n : Nat) (arg res : List Nat) (m : Mem α) : Except Unit (Mem α) :=
  if withOpenmp then Map.evalGen f s n arg res m else MapOmp.evalSeq f s n arg res m

/-- Semantics of the source code emitted by `MapOmp::generateBody`
(map.cpp lines 181-201), from loop index `i`: the emitted loop builds the
N-scaled frames (lines 188-198) and then emits the base-unit call as a bare
statement `f(arg_i, res_i, iw_i, w_i);` (line 199) — its return flag is
discarded, every iteration runs, and the loop falls through returning 0.  A
failing replica leaves memory as it was (its generated function returned
nonzero without completing its writes). -/
def MapOmp.genBodyLoop [Inhabited α] (f : BaseUnit) (s : UnitSem α)
    (arg res : List Nat) : Nat → Nat → Mem α → Nat × Mem α
  | 0, _, m => (0, m)
  | r + 1, i, m =>
    MapOmp.genBodyLoop f s arg res r (i + 1)
      (match f.call s (MapOmp.parArgPtrs f arg i) (MapOmp.parResPtrs f res i) m with
        | .error _ => m
        | .ok m2 => m2)

/-- Return flag and final memory of the code emitted by
`MapOmp::generateBody`, run on the whole replica range. -/
def MapOmp.genBody [Inhabited α] (f : BaseUnit) (s : UnitSem α) (n : Nat)
    (arg res : List Nat) (m : Mem α) : Nat × Mem α :=
  MapOmp.genBodyLoop f s arg res n 0 m

/-! ## Factory and configuration (`MapBase`), map.cpp lines 32-65, 203-212 -/

/-- The two strategy classes the factory can instantiate. -/
inductive MapKind where
  | serial
  | omp
  deriving DecidableEq, Repr

/-- The strategy name each class reports, used by `Map::get_forward_old` via
`parallelization()` (declared in map.hpp, not part of src): the names the
factory itself dispatches on. -/
def MapKind.parallelization : MapKind → String
  | .serial => "serial"
  | .omp => "openmp"

/-- A constructed map operator: strategy, base unit, replica count, and the
arities derived in the `MapBase` constructor (map.cpp lines 49-51:
`n_in_(f.n_in()), n_out_(f.n_out())`). -/
structure MapOperator where
  kind : MapKind
  f : BaseUnit
  n : Nat
  n_in : Nat
  n_out : Nat

/-- `MapBase::create` (map.cpp lines 32-47): dispatch on the
`parallelization` string — `"serial"` builds a `Map`, `"openmp"` builds a
`MapOmp`, anything else raises `casadi_error("Unknown parallelization: ...")`
and constructs nothing. -/
def MapBase.create (name parallelization : String) (f : BaseUnit) (n : Nat) :
    Except String MapOperator :=
  if parallelization = "serial" then .ok ⟨.serial, f, n, f.n_in, f.n_out⟩
  else if parallelization = "openmp" then .ok ⟨.omp, f, n, f.n_in, f.n_out⟩
  else .error ("Unknown parallelization: " ++ parallelization)

/-- `Map::get_forward_old` (map.cpp lines 129-136): differentiate the base
unit (`f_.forward(nfwd)`, external collaborator `fwd`), then map it with the
same strategy name and the same replica count. -/
def Map.get_forward_old (fwd : BaseUnit → Nat → BaseUnit) (op : MapOperator)
    (name : String) (nfwd : Nat) : Except String MapOperator :=
  MapBase.create name op.kind.parallelization (fwd op.f nfwd) op.n

/-- `Map::get_reverse_old` (map.cpp lines 138-145): differentiate the base
unit (`f_.reverse(nadj)`, external collaborator `rev`), then map it with the
same strategy name and the same replica count. -/
def Map.get_reverse_old (rev : BaseUnit → Nat → BaseUnit) (op : MapOperator)
    (name : String) (nadj : Nat) : Except String MapOperator :=
  MapBase.create name op.kind.parallelization (rev op.f nadj) op.n

/-- Registered scratch requirements of an operator. -/
structure AllocState where
  sz_arg : Nat
  sz_res : Nat
  sz_iw : Nat
  sz_w : Nat
  deriving DecidableEq, Repr

/-- The empty registration state. -/
def AllocState.zero : AllocState := ⟨0, 0, 0, 0⟩

/-- Modelled from the spec: `FunctionInternal::alloc_arg` and friends are not
part of src; per the spec (§4.2 idempotence of `init`, §4.3/4.4 registration)
a repeated registration keeps the maximum requirement seen so far. -/
def AllocState.req (st : AllocState) (a r iw w : Nat) : AllocState :=
  ⟨max st.sz_arg a, max st.sz_res r, max st.sz_iw iw, max st.sz_w w⟩

/-- `Map::init` (map.cpp lines 56-65): register the base unit's own scratch
requirements, one replica's worth (`alloc_arg(f_.sz_arg())`, ...). -/
def Map.initAlloc (f : BaseUnit) : AllocState :=
  AllocState.zero.req f.sz_arg f.sz_res f.sz_iw f.sz_w

/-- `MapOmp::init` (map.cpp lines 203-212): first `Map::init`, then register
the N-scaled requirements (`alloc_arg(f_.sz_arg() * n_)`, ...). -/
def MapOmp.initAlloc (f : BaseUnit) (n : Nat) : AllocState :=
  (Map.initAlloc f).req (f.sz_arg * n) (f.sz_res * n) (f.sz_iw * n) (f.sz_w * n)

/-! ## Regions and basic lemmas -/

/-- Address `a` lies in the block of `len` elements starting at `p`. -/
def inRegion (a p len : Nat) : Prop := p ≤ a ∧ a < p + len

instance (a p len : Nat) : Decidable (inRegion a p len) := by
  unfold inRegion; infer_instance

/-- The blocks `[a, a+la)` and `[b, b+lb)` do not overlap. -/
def Disj (a la b lb : Nat) : Prop := a + la ≤ b ∨ b + lb ≤ a

instance (a la b lb : Nat) : Decidable (Disj a la b lb) := by
  unfold Disj; infer_instance

theorem Disj.symm {a la b lb : Nat} (h : Disj a la b lb) : Disj b lb a la :=
  h.elim .inr .inl

/-- Shrinking both blocks preserves disjointness. -/
theorem Disj.mono {a la b lb a2 la2 b2 lb2 : Nat} (h : Disj a la b lb)
    (ha : a ≤ a2) (ha2 : a2 + la2 ≤ a + la) (hb : b ≤ b2) (hb2 : b2 + lb2 ≤ b + lb) :
    Disj a2 la2 b2 lb2 := by
  unfold Disj at h ⊢; omega

/-- A point of one block avoids any block disjoint from it. -/
theorem Disj.not_inRegion {a la b lb x : Nat} (h : Disj a la b lb)
    (hx : inRegion x a la) : ¬ inRegion x b lb := by
  unfold Disj at h; unfold inRegion at hx ⊢; omega

theorem getD_map_range {β : Type} (g : Nat → β) {n j : Nat} (hj : j < n) (d : β) :
    ((List.range n).map g).getD j d = g j := by
  have hl : j < ((List.range n).map g).length := by simpa using hj
  rw [List.getD_eq_getElem _ _ hl, List.getElem_map, List.getElem_range]

theorem serialArgPtrs_getD (f : BaseUnit) (arg : List Nat) (i j : Nat)
    (hj : j < f.n_in) :
    (Map.serialArgPtrs f arg i).getD j 0 =
      if arg.getD j 0 ≠ 0 then arg.getD j 0 + i * f.nnz_in j else 0 := by
  unfold Map.serialArgPtrs; exact getD_map_range _ hj 0

theorem serialResPtrs_getD (f : BaseUnit) (res : List Nat) (i j : Nat)
    (hj : j < f.n_out) :
    (Map.serialResPtrs f res i).getD j 0 =
      if res.getD j 0 ≠ 0 then res.getD j 0 + i * f.nnz_out j else 0 := by
  unfold Map.serialResPtrs; exact getD_map_range _ hj 0

theorem parArgPtrs_getD (f : BaseUnit) (arg : List Nat) (i j : Nat)
    (hj : j < f.n_in) :
    (MapOmp.parArgPtrs f arg i).getD j 0 = arg.getD j 0 + i * f.nnz_in j := by
  unfold MapOmp.parArgPtrs; exact getD_map_range _ hj 0

theorem parResPtrs_getD (f : BaseUnit) (res : List Nat) (i j : Nat)
    (hj : j < f.n_out) :
    (MapOmp.parResPtrs f res i).getD j 0 =
      if res.getD j 0 ≠ 0 then res.getD j 0 + i * f.nnz_out j else 0 := by
  unfold MapOmp.parResPtrs; exact getD_map_range _ hj 0

/-! ## Memory lemmas -/

variable {α : Type}

theorem readBlock_congr {m1 m2 : Mem α} {p len : Nat}
    (h : ∀ k, k < len → m1 (p + k) = m2 (p + k)) :
    readBlock m1 p len = readBlock m2 p len := by
  unfold readBlock
  exact List.map_congr_left fun k hk => h k (List.mem_range.mp hk)

theorem writeBlock_eq_of_out [Inhabited α] (m : Mem α) (p : Nat) (xs : List α)
    {a : Nat} (h : ¬ inRegion a p xs.length) : writeBlock m p xs a = m a := by
  unfold writeBlock
  rw [if_neg]
  intro hc; exact h ⟨hc.1, hc.2⟩

theorem readBlock_writeBlock_self [Inhabited α] (m : Mem α) (p : Nat)
    (xs : List α) : readBlock (writeBlock m p xs) p xs.length = xs := by
  apply List.ext_getElem
  · simp [readBlock]
  · intro k hk hk2
    have hklen : k < xs.length := hk2
    simp only [readBlock, List.getElem_map, List.getElem_range]
    unfold writeBlock
    rw [if_pos (by omega)]
    simp only [Nat.add_sub_cancel_left]
    exact List.getD_eq_getElem xs default hklen

theorem writeBlocks_eq_of_out [Inhabited α] (l : List (Nat × List α))
    (m : Mem α) {a : Nat}
    (h : ∀ p xs, (p, xs) ∈ l → p ≠ 0 → ¬ inRegion a p xs.length) :
    writeBlocks m l a = m a := by
  induction l generalizing m with
  | nil => rfl
  | cons hd tl ih =>
    obtain ⟨p, xs⟩ := hd
    show writeBlocks (if p = 0 then m else writeBlock m p xs) tl a = m a
    rw [ih _ fun q ys hq hq0 => h q ys (List.mem_cons_of_mem _ hq) hq0]
    by_cases hp : p = 0
    · rw [if_pos hp]
    · rw [if_neg hp]
      exact writeBlock_eq_of_out m p xs (h p xs (List.mem_cons_self _ _) hp)

theorem readBlock_writeBlocks_eq_of_out [Inhabited α] (l : List (Nat × List α))
    (m : Mem α) {p len : Nat}
    (h : ∀ q ys, (q, ys) ∈ l → q ≠ 0 → Disj p len q ys.length) :
    readBlock (writeBlocks m l) p len = readBlock m p len := by
  apply readBlock_congr
  intro k hk
  apply writeBlocks_eq_of_out
  intro q ys hq hq0
  exact (h q ys hq hq0).not_inRegion ⟨Nat.le_add_right _ _, by omega⟩

/-- Reading back the block written for index `j`, provided the block is
non-null and disjoint from every other non-null written block. -/
theorem readBlock_writeBlocks_idx [Inhabited α] (g : Nat → Nat × List α)
    (js : List Nat) (m : Mem α) {j : Nat} (hj : j ∈ js)
    (hnull : (g j).1 ≠ 0)
    (hdisj : ∀ k, k ∈ js → k ≠ j → (g k).1 ≠ 0 →
      Disj (g j).1 (g j).2.length (g k).1 (g k).2.length) :
    readBlock (writeBlocks m (js.map g)) (g j).1 (g j).2.length = (g j).2 := by
  induction js generalizing m with
  | nil => cases hj
  | cons hd tl ih =>
    show readBlock (writeBlocks
      (if (g hd).1 = 0 then m else writeBlock m (g hd).1 (g hd).2) (tl.map g)) _ _ = _
    by_cases hmem : j ∈ tl
    · exact ih _ hmem fun k hk => hdisj k (List.mem_cons_of_mem _ hk)
    · have hhd : hd = j := by
        rcases List.mem_cons.mp hj with h | h
        · exact h.symm
        · exact absurd h hmem
      subst hhd
      rw [readBlock_writeBlocks_eq_of_out _ _ ?hout]
      case hout =>
        intro q ys hq hq0
        obtain ⟨k, hk, hgk⟩ := List.mem_map.mp hq
        have hkj : k ≠ hd := fun he => hmem (he ▸ hk)
        have := hdisj k (List.mem_cons_of_mem _ hk) hkj (by rw [hgk]; exact hq0)
        rw [hgk] at this; exact this
      rw [if_neg hnull]
      exact readBlock_writeBlock_self m (g hd).1 (g hd).2

/-! ## Base-unit call lemmas -/

/-- The memory after a successful base-unit invocation. -/
def BaseUnit.callMem [Inhabited α] (f : BaseUnit) (s : UnitSem α)
    (argF resF : List Nat) (m : Mem α) : Mem α :=
  writeBlocks m (f.outFrames resF (s.fval (f.ins argF m)))

theorem call_eq_ok [Inhabited α] (f : BaseUnit) (s : UnitSem α)
    (argF resF : List Nat) (m : Mem α)
    (hnf : s.fails (f.ins argF m) = false) :
    f.call s argF resF m = .ok (f.callMem s argF resF m) := by
  unfold BaseUnit.call BaseUnit.callMem
  simp only [hnf, Bool.false_eq_true, if_false]

/-- An address outside every non-null output block of the result frame is
untouched by a base-unit invocation. -/
theorem callMem_eq_of_out [Inhabited α] (f : BaseUnit) (s : UnitSem α)
    (argF resF : List Nat) (m : Mem α) {a : Nat}
    (h : ∀ j, j < f.n_out → resF.getD j 0 ≠ 0 →
      ¬ inRegion a (resF.getD j 0) (f.nnz_out j)) :
    f.callMem s argF resF m a = m a := by
  apply writeBlocks_eq_of_out
  intro p xs hmem hp0
  obtain ⟨j, hjr, hg⟩ := List.mem_map.mp hmem
  have hjn : j < f.n_out := List.mem_range.mp hjr
  have hp : resF.getD j 0 = p := congrArg Prod.fst hg
  have hxs : ((s.fval (f.ins argF m)).getD j []).take (f.nnz_out j) = xs :=
    congrArg Prod.snd hg
  intro hc
  have hlen : xs.length ≤ f.nnz_out j := by
    rw [← hxs, List.length_take]; omega
  apply h j hjn (by rw [hp]; exact hp0)
  have hc1 : p ≤ a := hc.1
  have hc2 : a < p + xs.length := hc.2
  unfold inRegion
  omega

/-- Reading back output block `j` right after a base-unit invocation yields
the base unit's output block `j`, provided the result frame's non-null
blocks are pairwise disjoint and the base unit writes full blocks. -/
theorem readBlock_callMem [Inhabited α] (f : BaseUnit) (s : UnitSem α)
    (argF resF : List Nat) (m : Mem α) {j : Nat}
    (hWf : ∀ ins j2, j2 < f.n_out → ((s.fval ins).getD j2 []).length = f.nnz_out j2)
    (hj : j < f.n_out) (hnull : resF.getD j 0 ≠ 0)
    (hdisj : ∀ k, k < f.n_out → k ≠ j → resF.getD k 0 ≠ 0 →
      Disj (resF.getD j 0) (f.nnz_out j) (resF.getD k 0) (f.nnz_out k)) :
    readBlock (f.callMem s argF resF m) (resF.getD j 0) (f.nnz_out j) =
      (s.fval (f.ins argF m)).getD j [] := by
  unfold BaseUnit.callMem BaseUnit.outFrames
  set outs := s.fval (f.ins argF m) with houts
  have hlen0 : ∀ j2, j2 < f.n_out → (outs.getD j2 []).length = f.nnz_out j2 := by
    intro j2 hj2; rw [houts]; exact hWf _ j2 hj2
  have htake : ∀ j2, j2 < f.n_out →
      (outs.getD j2 []).take (f.nnz_out j2) = outs.getD j2 [] := by
    intro j2 hj2; rw [← hlen0 j2 hj2, List.take_length]
  have hlen : ∀ j2, j2 < f.n_out →
      ((outs.getD j2 []).take (f.nnz_out j2)).length = f.nnz_out j2 := by
    intro j2 hj2; rw [htake j2 hj2]; exact hlen0 j2 hj2
  have := readBlock_writeBlocks_idx
    (g := fun k => (resF.getD k 0, (outs.getD k []).take (f.nnz_out k)))
    (List.range f.n_out) m (List.mem_range.mpr hj) hnull ?hd
  case hd =>
    intro k hk hkj hk0
    simp only [hlen j hj, hlen k (List.mem_range.mp hk)]
    exact hdisj k (List.mem_range.mp hk) hkj hk0
  simp only [hlen j hj] at this
  rw [this, htake j hj]

/-! ## The serial loop as a pure memory transformer -/

/-- The serial replica loop of `Map::evalGen`, specialised to a base unit
that never fails. -/
def Map.runLoop [Inhabited α] (f : BaseUnit) (s : UnitSem α)
    (arg res : List Nat) : Nat → Nat → Mem α → Mem α
  | 0, _, m => m
  | r + 1, i, m =>
    Map.runLoop f s arg res r (i + 1)
      (f.callMem s (Map.serialArgPtrs f arg i) (Map.serialResPtrs f res i) m)

theorem evalLoop_eq_run [Inhabited α] (f : BaseUnit) (s : UnitSem α)
    (arg res : List Nat) (hnf : ∀ ins, s.fails ins = false) (r : Nat) :
    ∀ (i : Nat) (m : Mem α),
      Map.evalLoop f s arg res r i m = .ok (Map.runLoop f s arg res r i m) := by
  induction r with
  | zero => intro i m; rfl
  | succ r ih =>
    intro i m
    rw [Map.evalLoop, Map.runLoop, call_eq_ok _ _ _ _ _ (hnf _)]
    exact ih (i + 1) _

/-- Sub-block `i` of `count` stacked blocks of width `w` at base `b` lies
inside the region `[b, b + count*w)`. -/
theorem sub_block_le {b w i count : Nat} (hi : i < count) :
    b ≤ b + i * w ∧ (b + i * w) + w ≤ b + count * w := by
  refine ⟨Nat.le_add_right _ _, ?_⟩
  have h1 : (i + 1) * w ≤ count * w := Nat.mul_le_mul_right _ hi
  have h2 : (i + 1) * w = i * w + w := Nat.succ_mul i w
  omega

/-- Addresses outside every remaining output block are untouched by the rest
of the serial loop. -/
theorem runLoop_eq_of_out [Inhabited α] (f : BaseUnit) (s : UnitSem α)
    (arg res : List Nat) (r : Nat) :
    ∀ (i : Nat) (m : Mem α) (a : Nat),
      (∀ k j, i ≤ k → k < i + r → j < f.n_out → res.getD j 0 ≠ 0 →
        ¬ inRegion a (res.getD j 0 + k * f.nnz_out j) (f.nnz_out j)) →
      Map.runLoop f s arg res r i m a = m a := by
  induction r with
  | zero => intro i m a _; rfl
  | succ r ih =>
    intro i m a h
    rw [Map.runLoop]
    rw [ih (i + 1) _ a (fun k j hk hkr hj h0 => h k j (by omega) (by omega) hj h0)]
    apply callMem_eq_of_out
    intro j hj hjn
    rw [serialResPtrs_getD f res i j hj] at hjn ⊢
    by_cases h0 : res.getD j 0 ≠ 0
    · rw [if_pos h0]
      exact h i j le_rfl (by omega) hj h0
    · rw [if_neg h0] at hjn
      exact absurd rfl hjn

/-- The input blocks replica `k` reads are untouched by replica `i`'s
output writes, given that the whole input regions are disjoint from the
whole output regions. -/
theorem ins_callMem [Inhabited α] (f : BaseUnit) (s : UnitSem α) (n : Nat)
    (arg res : List Nat)
    (hArg : ∀ j, j < f.n_in → arg.getD j 0 ≠ 0)
    (hInOut : ∀ j j2, j < f.n_in → j2 < f.n_out → res.getD j2 0 ≠ 0 →
      Disj (arg.getD j 0) (n * f.nnz_in j) (res.getD j2 0) (n * f.nnz_out j2))
    (i k : Nat) (hi : i < n) (hk : k < n) (m : Mem α) :
    f.ins (Map.serialArgPtrs f arg k)
        (f.callMem s (Map.serialArgPtrs f arg i) (Map.serialResPtrs f res i) m) =
      f.ins (Map.serialArgPtrs f arg k) m := by
  unfold BaseUnit.ins
  apply List.map_congr_left
  intro j hjr
  have hj : j < f.n_in := List.mem_range.mp hjr
  apply readBlock_congr
  intro t ht
  apply callMem_eq_of_out
  intro j2 hj2 hjn2
  rw [serialResPtrs_getD f res i j2 hj2] at hjn2 ⊢
  by_cases h0 : res.getD j2 0 ≠ 0
  case neg => rw [if_neg h0] at hjn2; exact absurd rfl hjn2
  rw [if_pos h0]
  rw [serialArgPtrs_getD f arg k j hj, if_pos (hArg j hj)]
  have hd := (hInOut j j2 hj hj2 h0).mono (sub_block_le hk).1 (sub_block_le hk).2
    (sub_block_le hi).1 (sub_block_le hi).2
  exact hd.not_inRegion (by unfold inRegion; omega)

/-- Main serial-loop invariant: after running the loop from replica `i`,
output block `(k, j)` (for any `i ≤ k < n` and non-null output slot `j`)
holds exactly the base unit's output block `j` computed from replica `k`'s
input blocks as read from the starting memory. -/
theorem readBlock_runLoop [Inhabited α] (f : BaseUnit) (s : UnitSem α) (n : Nat)
    (arg res : List Nat)
    (hWf : ∀ ins j2, j2 < f.n_out → ((s.fval ins).getD j2 []).length = f.nnz_out j2)
    (hArg : ∀ j, j < f.n_in → arg.getD j 0 ≠ 0)
    (hInOut : ∀ j j2, j < f.n_in → j2 < f.n_out → res.getD j2 0 ≠ 0 →
      Disj (arg.getD j 0) (n * f.nnz_in j) (res.getD j2 0) (n * f.nnz_out j2))
    (hOO : ∀ j j2, j < f.n_out → j2 < f.n_out → j ≠ j2 → res.getD j 0 ≠ 0 →
      res.getD j2 0 ≠ 0 →
      Disj (res.getD j 0) (n * f.nnz_out j) (res.getD j2 0) (n * f.nnz_out j2))
    (r : Nat) :
    ∀ (i k j : Nat) (m : Mem α), i + r ≤ n → i ≤ k → k < i + r → j < f.n_out →
      res.getD j 0 ≠ 0 →
      readBlock (Map.runLoop f s arg res r i m)
          (res.getD j 0 + k * f.nnz_out j) (f.nnz_out j)
        = (s.fval (f.ins (Map.serialArgPtrs f arg k) m)).getD j [] := by
  induction r with
  | zero => intro i k j m _ hik hkr _ _; omega
  | succ r ih =>
    intro i k j m hirn hik hkr hj hnull
    have hi : i < n := by omega
    rw [Map.runLoop]
    by_cases hik2 : i = k
    case neg =>
      rw [ih (i + 1) k j _ (by omega) (by omega) (by omega) hj hnull]
      rw [ins_callMem f s n arg res hArg hInOut i k hi (by omega) m]
    case pos =>
      subst hik2
      have hRj : (Map.serialResPtrs f res i).getD j 0 =
          res.getD j 0 + i * f.nnz_out j := by
        rw [serialResPtrs_getD f res i j hj, if_pos hnull]
      have hpres : readBlock (Map.runLoop f s arg res r (i + 1)
            (f.callMem s (Map.serialArgPtrs f arg i) (Map.serialResPtrs f res i) m))
            (res.getD j 0 + i * f.nnz_out j) (f.nnz_out j)
          = readBlock
            (f.callMem s (Map.serialArgPtrs f arg i) (Map.serialResPtrs f res i) m)
            (res.getD j 0 + i * f.nnz_out j) (f.nnz_out j) := by
        apply readBlock_congr
        intro t ht
        apply runLoop_eq_of_out
        intro kk j2 hkk1 hkk2 hj2 h02
        have hkkn : kk < n := by omega
        by_cases hjj : j2 = j
        · subst hjj
          have hsm : (i + 1) * f.nnz_out j2 = i * f.nnz_out j2 + f.nnz_out j2 :=
            Nat.succ_mul i _
          have hml : (i + 1) * f.nnz_out j2 ≤ kk * f.nnz_out j2 :=
            Nat.mul_le_mul_right _ hkk1
          unfold inRegion
          omega
        · have hd := (hOO j j2 hj hj2 (fun he => hjj he.symm) hnull h02).mono
            (sub_block_le hi).1 (sub_block_le hi).2
            (sub_block_le hkkn).1 (sub_block_le hkkn).2
          exact hd.not_inRegion (by unfold inRegion; omega)
      rw [hpres, ← hRj]
      apply readBlock_callMem f s _ _ m hWf hj
      · rw [hRj]; omega
      · intro k2 hk2 hk2j h0k2
        rw [serialResPtrs_getD f res i k2 hk2] at h0k2 ⊢
        by_cases h02 : res.getD k2 0 ≠ 0
        case neg => rw [if_neg h02] at h0k2; exact absurd rfl h0k2
        rw [if_pos h02, hRj]
        exact (hOO j k2 hj hk2 (fun he => hk2j he.symm) hnull h02).mono
          (sub_block_le hi).1 (sub_block_le hi).2
          (sub_block_le hi).1 (sub_block_le hi).2

/-! ## Parallel vs. serial frames -/

/-- The parallel result-pointer rule is literally the serial one
(map.cpp line 168 vs. line 77). -/
theorem parResPtrs_eq_serial (f : BaseUnit) (res : List Nat) (i : Nat) :
    MapOmp.parResPtrs f res i = Map.serialResPtrs f res i := rfl

/-- With every input pointer non-null, the parallel argument-pointer rule
coincides with the serial one (the two differ only on null inputs). -/
theorem parArgPtrs_eq_serial (f : BaseUnit) (arg : List Nat)
    (hArg : ∀ j, j < f.n_in → arg.getD j 0 ≠ 0) (i : Nat) :
    MapOmp.parArgPtrs f arg i = Map.serialArgPtrs f arg i := by
  unfold MapOmp.parArgPtrs Map.serialArgPtrs
  apply List.map_congr_left
  intro j hjr
  rw [if_pos (hArg j (List.mem_range.mp hjr))]

/-- With every input pointer non-null, the sequential execution of the
parallel strategy's loop computes exactly what the serial loop computes. -/
theorem evalSeqLoop_eq_evalLoop [Inhabited α] (f : BaseUnit) (s : UnitSem α)
    (arg res : List Nat)
    (hArg : ∀ j, j < f.n_in → arg.getD j 0 ≠ 0) (r : Nat) :
    ∀ (i : Nat) (m : Mem α),
      MapOmp.evalSeqLoop f s arg res r i m = Map.evalLoop f s arg res r i m := by
  induction r with
  | zero => intro i m; rfl
  | succ r ih =>
    intro i m
    rw [MapOmp.evalSeqLoop, Map.evalLoop, parArgPtrs_eq_serial f arg hArg i,
      parResPtrs_eq_serial f res i]
    cases f.call s (Map.serialArgPtrs f arg i) (Map.serialResPtrs f res i) m with
    | error e => rfl
    | ok m2 => exact ih (i + 1) m2

/-! ## Failure propagation in the serial loop -/

/-- If the first failing replica of the serial loop run from index `i` with
`r` replicas remaining is `k`, then both the in-process loop and the loop of
the emitted code invoke exactly replicas `i..k`, the in-process evaluation
raises the failure, and the emitted code returns 1. -/
theorem serial_fail_loop [Inhabited α] (f : BaseUnit) (s : UnitSem α)
    (arg res : List Nat) (r : Nat) :
    ∀ (i k : Nat) (m : Mem α),
      Map.firstFailLoop f s arg res r i m = some k →
      i ≤ k ∧ k < i + r ∧
      Map.evalLoop f s arg res r i m = .error () ∧
      Map.invokedLoop f s arg res r i m = List.range' i (k + 1 - i) ∧
      (Map.genBodyLoop f s arg res r i m).1 = 1 ∧
      Map.genInvokedLoop f s arg res r i m = List.range' i (k + 1 - i) := by
  induction r with
  | zero =>
    intro i k m h
    exact absurd h (by rw [Map.firstFailLoop]; exact Option.noConfusion)
  | succ r ih =>
    intro i k m h
    rw [Map.firstFailLoop] at h
    rw [Map.evalLoop, Map.invokedLoop, Map.genBodyLoop, Map.genInvokedLoop]
    cases hc : f.call s (Map.serialArgPtrs f arg i) (Map.serialResPtrs f res i) m with
    | error e =>
      rw [hc] at h
      simp only at h
      have hik : i = k := Option.some.injEq .. ▸ h
      subst hik
      cases e
      have h1 : i + 1 - i = 1 := by omega
      simp only [hc, h1, List.range'_one]
      refine ⟨le_rfl, by omega, ?_, ?_, ?_, ?_⟩ <;> trivial
    | ok m2 =>
      rw [hc] at h
      simp only at h
      obtain ⟨h1, h2, h3, h4, h5, h6⟩ := ih (i + 1) k m2 h
      have hd : k + 1 - i = (k + 1 - (i + 1)) + 1 := by omega
      simp only [hc, hd, List.range'_succ]
      exact ⟨by omega, by omega, h3, by rw [h4], h5, by rw [h6]⟩

/-! ## Concrete instances used by witnesses and counterexamples -/

/-- A small concrete base unit: one input of one nonzero, one output of one
nonzero, every scratch size 1. -/
def f1 : BaseUnit := ⟨1, 1, fun _ => 1, fun _ => 1, 1, 1, 1, 1⟩

/-- A concrete never-failing numeric entry point over `Int`: the single
output element is the single input element plus one. -/
def s1 : UnitSem Int :=
  ⟨fun ins => [[(ins.getD 0 []).getD 0 0 + 1]], fun _ => false⟩

/-- A concrete always-failing entry point over `Int`. -/
def sFail : UnitSem Int := ⟨fun _ => [[0]], fun _ => true⟩

/-- A concrete starting memory over `Int`: address `a` holds the value `a`. -/
def m1 : Mem Int := fun a => Int.ofNat a

/-! ## Claim theorems -/

/-- C2 counterexample: the strategy name `"parallel"`, which the claim
counts among the accepted set, is rejected by the factory with the
unknown-parallelization error — the accepted names are `"serial"` and
`"openmp"`. -/
theorem create_rejects_parallel :
    MapBase.create "m" "parallel" f1 2 =
      .error "Unknown parallelization: parallel" := by
  rfl

/-- C2 (amended): the factory succeeds exactly when the strategy name is
one of the fixed set `{"serial", "openmp"}` (not `{"serial", "parallel"}`);
any other name, for example `"gpu"`, fails with the unknown-parallelization
error and constructs no operator. -/
theorem create_strategy_names (name p : String) (f : BaseUnit) (n : Nat) :
    ((∃ op, MapBase.create name p f n = .ok op) ↔ p = "serial" ∨ p = "openmp") ∧
    MapBase.create name "gpu" f n = .error "Unknown parallelization: gpu" := by
  constructor
  · constructor
    · intro ⟨op, hop⟩
      by_cases h1 : p = "serial"
      · exact .inl h1
      by_cases h2 : p = "openmp"
      · exact .inr h2
      unfold MapBase.create at hop
      rw [if_neg h1, if_neg h2] at hop
      exact absurd hop (fun he => Except.noConfusion he)
    · rintro (h | h) <;> subst h
      · exact ⟨_, rfl⟩
      · exact ⟨_, rfl⟩
  · rfl

/-- C3: after initialization, the serial map registers exactly the base
unit's own scratch requirements (one replica's worth), while the parallel
map registers each requirement multiplied by the replica count `n`. -/
theorem init_alloc_sizes (f : BaseUnit) (n : Nat) (hn : 1 ≤ n) :
    Map.initAlloc f = ⟨f.sz_arg, f.sz_res, f.sz_iw, f.sz_w⟩ ∧
    MapOmp.initAlloc f n = ⟨f.sz_arg * n, f.sz_res * n, f.sz_iw * n, f.sz_w * n⟩ := by
  have hle : ∀ z : Nat, z ≤ z * n := fun z => Nat.le_mul_of_pos_right z hn
  unfold MapOmp.initAlloc Map.initAlloc AllocState.req AllocState.zero
  constructor
  · rw [Nat.zero_max, Nat.zero_max, Nat.zero_max, Nat.zero_max]
  · rw [Nat.zero_max, Nat.zero_max, Nat.zero_max, Nat.zero_max,
      Nat.max_eq_right (hle f.sz_arg), Nat.max_eq_right (hle f.sz_res),
      Nat.max_eq_right (hle f.sz_iw), Nat.max_eq_right (hle f.sz_w)]

/-- C3 witness at the concrete base unit `f1` and replica count 3. -/
theorem init_alloc_sizes_witness :
    1 ≤ 3 ∧
    (Map.initAlloc f1 = ⟨f1.sz_arg, f1.sz_res, f1.sz_iw, f1.sz_w⟩ ∧
      MapOmp.initAlloc f1 3 =
        ⟨f1.sz_arg * 3, f1.sz_res * 3, f1.sz_iw * 3, f1.sz_w * 3⟩) :=
  ⟨by decide, init_alloc_sizes f1 3 (by decide)⟩

/-- C8: an operator constructed by the factory with either strategy has the
base unit's arities: `n_in = f.n_in` and `n_out = f.n_out`. -/
theorem create_preserves_arity (name p : String) (f : BaseUnit) (n : Nat)
    (op : MapOperator) (h : MapBase.create name p f n = .ok op) :
    op.n_in = f.n_in ∧ op.n_out = f.n_out := by
  unfold MapBase.create at h
  by_cases h1 : p = "serial"
  · rw [if_pos h1] at h
    cases h
    exact ⟨rfl, rfl⟩
  rw [if_neg h1] at h
  by_cases h2 : p = "openmp"
  · rw [if_pos h2] at h
    cases h
    exact ⟨rfl, rfl⟩
  · rw [if_neg h2] at h
    exact Except.noConfusion h

/-- C8 witness: a concrete `"openmp"` map over `f1` with 3 replicas. -/
theorem create_preserves_arity_witness :
    (⟨MapKind.omp, f1, 3, 1, 1⟩ : MapOperator).n_in = f1.n_in ∧
    (⟨MapKind.omp, f1, 3, 1, 1⟩ : MapOperator).n_out = f1.n_out :=
  create_preserves_arity "m" "openmp" f1 3 ⟨MapKind.omp, f1, 3, 1, 1⟩ rfl

/-- C4: `get_forward` returns the map, at the same replica count and the
same strategy, of the base unit's forward derivative, and `get_reverse` is
symmetric with the reverse derivative; evaluating the derivative map
therefore coincides with evaluating the map of the derivative on the same
input/seed pair. -/
theorem get_forward_reverse_same_map (fwd rv : BaseUnit → Nat → BaseUnit)
    (op : MapOperator) (name : String) (k : Nat) :
    (∃ opf, Map.get_forward_old fwd op name k = .ok opf ∧
      opf.kind = op.kind ∧ opf.n = op.n ∧ opf.f = fwd op.f k ∧
      ∀ (α : Type) [Inhabited α] (s : UnitSem α) (arg res : List Nat) (m : Mem α),
        Map.evalGen opf.f s opf.n arg res m =
          Map.evalGen (fwd op.f k) s op.n arg res m) ∧
    (∃ opr, Map.get_reverse_old rv op name k = .ok opr ∧
      opr.kind = op.kind ∧ opr.n = op.n ∧ opr.f = rv op.f k ∧
      ∀ (α : Type) [Inhabited α] (s : UnitSem α) (arg res : List Nat) (m : Mem α),
        Map.evalGen opr.f s opr.n arg res m =
          Map.evalGen (rv op.f k) s op.n arg res m) := by
  obtain ⟨kind, f0, n0, ni, no⟩ := op
  cases kind <;>
    exact ⟨⟨_, rfl, rfl, rfl, rfl, fun α _ s arg res m => rfl⟩,
      ⟨_, rfl, rfl, rfl, rfl, fun α _ s arg res m => rfl⟩⟩

/-- C10: in the serial strategy, a null input pointer is propagated as null
to every replica, by the frame rule shared by the numeric, symbolic and
forward-sparsity entry points (`Map::evalGen`) and equally by the
reverse-sparsity frame rule (`Map::sp_rev`). -/
theorem serial_null_input_propagation (f : BaseUnit) (arg : List Nat) (j : Nat)
    (hj : j < f.n_in) (hnull : arg.getD j 0 = 0) (i : Nat) :
    (Map.serialArgPtrs f arg i).getD j 0 = 0 ∧
    (Map.spRevArgPtrs f arg i).getD j 0 = 0 := by
  have he : Map.spRevArgPtrs f arg i = Map.serialArgPtrs f arg i := rfl
  rw [he, serialArgPtrs_getD f arg i j hj, if_neg (not_not_intro hnull)]
  exact ⟨rfl, rfl⟩

/-- C10 witness: a null input pointer at slot 0 of `f1` stays null in
replica 2's frames. -/
theorem serial_null_input_propagation_witness :
    0 < f1.n_in ∧ ([0] : List Nat).getD 0 0 = 0 ∧
    ((Map.serialArgPtrs f1 [0] 2).getD 0 0 = 0 ∧
      (Map.spRevArgPtrs f1 [0] 2).getD 0 0 = 0) :=
  ⟨by decide, rfl, serial_null_input_propagation f1 [0] 0 (by decide) rfl 2⟩

/-- C6: a null output pointer propagates as null to every replica in both
the serial and the parallel frame rules, and a base-unit invocation leaves
every address outside the non-null output blocks untouched — the null slot
is never dereferenced. -/
theorem null_output_propagation (f : BaseUnit) (res : List Nat) (j : Nat)
    (hj : j < f.n_out) (hnull : res.getD j 0 = 0) (i : Nat) :
    (Map.serialResPtrs f res i).getD j 0 = 0 ∧
    (MapOmp.parResPtrs f res i).getD j 0 = 0 ∧
    (∀ (α : Type) [Inhabited α] (s : UnitSem α) (argF : List Nat) (m : Mem α)
      (a : Nat),
      (∀ j2, j2 < f.n_out → (Map.serialResPtrs f res i).getD j2 0 ≠ 0 →
        ¬ inRegion a ((Map.serialResPtrs f res i).getD j2 0) (f.nnz_out j2)) →
      f.callMem s argF (Map.serialResPtrs f res i) m a = m a) := by
  rw [parResPtrs_eq_serial, serialResPtrs_getD f res i j hj,
    if_neg (not_not_intro hnull)]
  exact ⟨rfl, rfl, fun α _ s argF m a h => callMem_eq_of_out f s argF _ m h⟩

/-- C6 witness: a null output pointer at slot 0 of `f1` stays null in
replica 1's frames of both strategies. -/
theorem null_output_propagation_witness :
    0 < f1.n_out ∧ ([0] : List Nat).getD 0 0 = 0 ∧
    ((Map.serialResPtrs f1 [0] 1).getD 0 0 = 0 ∧
      (MapOmp.parResPtrs f1 [0] 1).getD 0 0 = 0 ∧
      (∀ (α : Type) [Inhabited α] (s : UnitSem α) (argF : List Nat) (m : Mem α)
        (a : Nat),
        (∀ j2, j2 < f1.n_out → (Map.serialResPtrs f1 [0] 1).getD j2 0 ≠ 0 →
          ¬ inRegion a ((Map.serialResPtrs f1 [0] 1).getD j2 0) (f1.nnz_out j2)) →
        f1.callMem s argF (Map.serialResPtrs f1 [0] 1) m a = m a)) :=
  ⟨by decide, rfl, null_output_propagation f1 [0] 0 (by decide) rfl 1⟩

/-- Stacked stride-`w` slices with distinct indices are disjoint. -/
theorem stride_disj (w i i2 : Nat) (hne : i ≠ i2) : Disj (i * w) w (i2 * w) w := by
  unfold Disj
  rcases Nat.lt_or_ge i i2 with h | h
  · have h1 : (i + 1) * w ≤ i2 * w := Nat.mul_le_mul_right w h
    have h2 : (i + 1) * w = i * w + w := Nat.succ_mul i w
    omega
  · have h3 : i2 + 1 ≤ i := by omega
    have h1 : (i2 + 1) * w ≤ i * w := Nat.mul_le_mul_right w h3
    have h2 : (i2 + 1) * w = i2 * w + w := Nat.succ_mul i2 w
    omega

/-- C7 (code bug): in the no-OpenMP branch the parallel strategy does hand
replica `i` the exclusive N-scaled slices (`i*sz_iw`, `i*sz_w`, windows
`n_in + sz_arg*i` / `n_out + sz_res*i`), pairwise disjoint across replicas;
but when `WITH_OPENMP` is defined, `MapOmp::eval` delegates wholesale to
`Map::eval`, handing every replica the serial shared frame (scratch
offsets 0) — the serial shared-slice layout is silently substituted exactly
when a parallel facility exists (the `#ifdef` is inverted; the `#pragma omp`
sits in the branch compiled only without OpenMP). -/
theorem mapOmp_layout :
    (∀ (f : BaseUnit) (arg res : List Nat) (i : Nat),
      MapOmp.frame false f arg res i = MapOmp.frameSeq f arg res i ∧
      (MapOmp.frameSeq f arg res i).iwOff = i * f.sz_iw ∧
      (MapOmp.frameSeq f arg res i).wOff = i * f.sz_w ∧
      (MapOmp.frameSeq f arg res i).argWin = f.n_in + f.sz_arg * i ∧
      (MapOmp.frameSeq f arg res i).resWin = f.n_out + f.sz_res * i) ∧
    (∀ (f : BaseUnit) (arg res : List Nat) (i i2 : Nat), i ≠ i2 →
      Disj ((MapOmp.frameSeq f arg res i).iwOff) f.sz_iw
        ((MapOmp.frameSeq f arg res i2).iwOff) f.sz_iw ∧
      Disj ((MapOmp.frameSeq f arg res i).wOff) f.sz_w
        ((MapOmp.frameSeq f arg res i2).wOff) f.sz_w) ∧
    (∀ (f : BaseUnit) (arg res : List Nat) (i : Nat),
      MapOmp.frame true f arg res i = Map.frame f arg res i) ∧
    (∀ (α : Type) [Inhabited α] (f : BaseUnit) (s : UnitSem α) (n : Nat)
      (arg res : List Nat) (m : Mem α),
      MapOmp.eval true f s n arg res m = Map.evalGen f s n arg res m) ∧
    ((MapOmp.frame true f1 [10] [20] 1).iwOff = 0 ∧
      (MapOmp.frameSeq f1 [10] [20] 1).iwOff = 1) := by
  refine ⟨fun f arg res i => ⟨rfl, rfl, rfl, rfl, rfl⟩, ?_,
    fun f arg res i => rfl, fun α _ f s n arg res m => rfl, by decide, by decide⟩
  intro f arg res i i2 hne
  exact ⟨stride_disj f.sz_iw i i2 hne, stride_disj f.sz_w i i2 hne⟩

/-- C9 counterexample: the loop emitted by `MapOmp::generateBody` discards
the base unit's failure flag; with a base unit that fails (on the single
replica here), the emitted code still returns 0 — no aggregate failure is
surfaced, contrary to the claim. -/
theorem mapOmp_genBody_failure_lost :
    (MapOmp.genBody f1 sFail 1 [10] [20] m1).1 = 0 ∧
    sFail.fails (f1.ins (MapOmp.parArgPtrs f1 [10] 0) m1) = true :=
  ⟨rfl, rfl⟩

/-- Auxiliary for C9: the emitted parallel loop returns flag 0 from any
starting index and memory. -/
theorem mapOmp_genBodyLoop_flag_zero [Inhabited α] (f : BaseUnit)
    (s : UnitSem α) (arg res : List Nat) (r : Nat) :
    ∀ (i : Nat) (m : Mem α), (MapOmp.genBodyLoop f s arg res r i m).1 = 0 := by
  induction r with
  | zero => intro i m; rfl
  | succ r ih =>
    intro i m
    rw [MapOmp.genBodyLoop]
    exact ih _ _

/-- C9 (amended): the code emitted by `MapOmp::generateBody` emits each
replica's base-unit call as a bare statement (map.cpp line 199): every
replica runs, but the per-replica failure status is discarded and the
emitted function returns 0 unconditionally — no aggregate failure is
surfaced. -/
theorem mapOmp_genBody_flag_zero (α : Type) [Inhabited α] (f : BaseUnit)
    (s : UnitSem α) (n : Nat) (arg res : List Nat) (m : Mem α) :
    (MapOmp.genBody f s n arg res m).1 = 0 :=
  mapOmp_genBodyLoop_flag_zero f s arg res n 0 m

/-- C5: if the base unit first fails at replica `k` with `k+1 < n` in a
serial map, then — in-process and in the emitted code alike — exactly
replicas `0..k` are invoked, replicas `k+1..n-1` never run, and the call
reports failure (the in-process evaluation raises, the emitted code
returns 1). -/
theorem serial_failure_aborts [Inhabited α] (f : BaseUnit) (s : UnitSem α)
    (n : Nat) (arg res : List Nat) (m : Mem α) (k : Nat)
    (hk : Map.firstFailure f s n arg res m = some k) (hkn : k + 1 < n) :
    Map.evalGen f s n arg res m = .error () ∧
    Map.serialInvoked f s n arg res m = List.range (k + 1) ∧
    (Map.genBody f s n arg res m).1 = 1 ∧
    Map.genInvoked f s n arg res m = List.range (k + 1) := by
  obtain ⟨h1, h2, h3, h4, h5, h6⟩ := serial_fail_loop f s arg res n 0 k m hk
  have hr : List.range' 0 (k + 1 - 0) = List.range (k + 1) := by
    rw [Nat.sub_zero]
    exact (List.range_eq_range' _).symm
  exact ⟨h3, by rw [Map.serialInvoked, h4, hr], h5, by rw [Map.genInvoked, h6, hr]⟩

/-- C5 witness: the always-failing base unit over 3 replicas fails first at
replica 0 (and `0 + 1 < 3`): only replica 0 is invoked. -/
theorem serial_failure_aborts_witness :
    Map.firstFailure f1 sFail 3 [10] [20] m1 = some 0 ∧ 0 + 1 < 3 ∧
    (Map.evalGen f1 sFail 3 [10] [20] m1 = .error () ∧
      Map.serialInvoked f1 sFail 3 [10] [20] m1 = List.range 1 ∧
      (Map.genBody f1 sFail 3 [10] [20] m1).1 = 1 ∧
      Map.genInvoked f1 sFail 3 [10] [20] m1 = List.range 1) :=
  ⟨rfl, by decide, serial_failure_aborts f1 sFail 3 [10] [20] m1 0 rfl (by decide)⟩

/-- C1 counterexample: a null input pointer does not stay null in the
parallel strategy — `MapOmp::eval`'s sequential branch computes replica 1's
input frame for a null `arg[0]` as the non-null pointer `0 + 1*nnz_in = 1`
(map.cpp line 164 has no null check), while the serial rule keeps it null. -/
theorem mapOmp_null_input_offset :
    (MapOmp.parArgPtrs f1 [0] 1).getD 0 0 = 1 ∧
    (Map.serialArgPtrs f1 [0] 1).getD 0 0 = 0 := by decide

/-- C1 (amended): for a base unit with full-width outputs that never fails,
non-null input pointers, and block layouts where input regions are disjoint
from output regions and output regions are pairwise disjoint: replica `i`
is invoked with input pointers `arg[j] + i*nnz_in(j)` and output pointers
`res[j] + i*nnz_out(j)`, null output pointers staying null (null input
pointers stay null only in the serial rule; the parallel rule offsets
them); the parallel strategy's numeric evaluation agrees exactly with the
serial one under both compilation modes; and every output block `(i, j)` of
the map result equals the corresponding block of one independent invocation
of the base unit on replica `i`'s input blocks. -/
theorem map_eval_blockwise (α : Type) [Inhabited α] (f : BaseUnit)
    (s : UnitSem α) (n : Nat) (arg res : List Nat) (m : Mem α)
    (hWf : ∀ ins j2, j2 < f.n_out → ((s.fval ins).getD j2 []).length = f.nnz_out j2)
    (hnf : ∀ ins, s.fails ins = false)
    (hArg : ∀ j, j < f.n_in → arg.getD j 0 ≠ 0)
    (hInOut : ∀ j j2, j < f.n_in → j2 < f.n_out → res.getD j2 0 ≠ 0 →
      Disj (arg.getD j 0) (n * f.nnz_in j) (res.getD j2 0) (n * f.nnz_out j2))
    (hOO : ∀ j j2, j < f.n_out → j2 < f.n_out → j ≠ j2 → res.getD j 0 ≠ 0 →
      res.getD j2 0 ≠ 0 →
      Disj (res.getD j 0) (n * f.nnz_out j) (res.getD j2 0) (n * f.nnz_out j2)) :
    (∀ i j, j < f.n_in →
      (Map.serialArgPtrs f arg i).getD j 0 = arg.getD j 0 + i * f.nnz_in j) ∧
    (∀ i j, j < f.n_out →
      (Map.serialResPtrs f res i).getD j 0 =
        if res.getD j 0 = 0 then 0 else res.getD j 0 + i * f.nnz_out j) ∧
    (∀ withOpenmp, MapOmp.eval withOpenmp f s n arg res m =
      Map.evalGen f s n arg res m) ∧
    ∃ M, Map.evalGen f s n arg res m = .ok M ∧
      ∀ i j, i < n → j < f.n_out → res.getD j 0 ≠ 0 →
        ∃ Mi, f.call s (Map.serialArgPtrs f arg i) (Map.serialResPtrs f res i) m
            = .ok Mi ∧
          readBlock M (res.getD j 0 + i * f.nnz_out j) (f.nnz_out j) =
            readBlock Mi (res.getD j 0 + i * f.nnz_out j) (f.nnz_out j) := by
  refine ⟨?_, ?_, ?_, ?_⟩
  · intro i j hj
    rw [serialArgPtrs_getD f arg i j hj, if_pos (hArg j hj)]
  · intro i j hj
    rw [serialResPtrs_getD f res i j hj]
    by_cases h0 : res.getD j 0 = 0
    · rw [if_neg (not_not_intro h0), if_pos h0]
    · rw [if_pos h0, if_neg h0]
  · intro w
    cases w
    · exact evalSeqLoop_eq_evalLoop f s arg res hArg n 0 m
    · rfl
  · refine ⟨Map.runLoop f s arg res n 0 m, evalLoop_eq_run f s arg res hnf n 0 m, ?_⟩
    intro i j hi hj hnull
    refine ⟨f.callMem s (Map.serialArgPtrs f arg i) (Map.serialResPtrs f res i) m,
      call_eq_ok f s _ _ m (hnf _), ?_⟩
    have hL := readBlock_runLoop f s n arg res hWf hArg hInOut hOO n 0 i j m
      (by omega) (by omega) (by omega) hj hnull
    have hRj : (Map.serialResPtrs f res i).getD j 0 =
        res.getD j 0 + i * f.nnz_out j := by
      rw [serialResPtrs_getD f res i j hj, if_pos hnull]
    have hR : readBlock (f.callMem s (Map.serialArgPtrs f arg i)
          (Map.serialResPtrs f res i) m) (res.getD j 0 + i * f.nnz_out j)
          (f.nnz_out j)
        = (s.fval (f.ins (Map.serialArgPtrs f arg i) m)).getD j [] := by
      rw [← hRj]
      apply readBlock_callMem f s _ _ m hWf hj
      · rw [hRj]; omega
      · intro k2 hk2 hk2j h0k2
        rw [serialResPtrs_getD f res i k2 hk2] at h0k2 ⊢
        by_cases h02 : res.getD k2 0 ≠ 0
        case neg => rw [if_neg h02] at h0k2; exact absurd rfl h0k2
        rw [if_pos h02, hRj]
        exact (hOO j k2 hj hk2 (fun he => hk2j he.symm) hnull h02).mono
          (sub_block_le hi).1 (sub_block_le hi).2
          (sub_block_le hi).1 (sub_block_le hi).2
    rw [hL, hR]

/-- C1 witness: `f1` mapped serially and in parallel over 2 replicas, input
blocks at address 10, output blocks at address 20. -/
theorem map_eval_blockwise_witness :
    (∀ ins j2, j2 < f1.n_out → ((s1.fval ins).getD j2 []).length = f1.nnz_out j2) ∧
    (∀ ins, s1.fails ins = false) ∧
    (∀ j, j < f1.n_in → ([10] : List Nat).getD j 0 ≠ 0) ∧
    (∀ j j2, j < f1.n_in → j2 < f1.n_out → ([20] : List Nat).getD j2 0 ≠ 0 →
      Disj (([10] : List Nat).getD j 0) (2 * f1.nnz_in j)
        (([20] : List Nat).getD j2 0) (2 * f1.nnz_out j2)) ∧
    (∀ j j2, j < f1.n_out → j2 < f1.n_out → j ≠ j2 →
      ([20] : List Nat).getD j 0 ≠ 0 → ([20] : List Nat).getD j2 0 ≠ 0 →
      Disj (([20] : List Nat).getD j 0) (2 * f1.nnz_out j)
        (([20] : List Nat).getD j2 0) (2 * f1.nnz_out j2)) ∧
    ((∀ i j, j < f1.n_in →
        (Map.serialArgPtrs f1 [10] i).getD j 0 =
          ([10] : List Nat).getD j 0 + i * f1.nnz_in j) ∧
      (∀ i j, j < f1.n_out →
        (Map.serialResPtrs f1 [20] i).getD j 0 =
          if ([20] : List Nat).getD j 0 = 0 then 0
          else ([20] : List Nat).getD j 0 + i * f1.nnz_out j) ∧
      (∀ withOpenmp, MapOmp.eval withOpenmp f1 s1 2 [10] [20] m1 =
        Map.evalGen f1 s1 2 [10] [20] m1) ∧
      ∃ M, Map.evalGen f1 s1 2 [10] [20] m1 = .ok M ∧
        ∀ i j, i < 2 → j < f1.n_out → ([20] : List Nat).getD j 0 ≠ 0 →
          ∃ Mi, f1.call s1 (Map.serialArgPtrs f1 [10] i)
              (Map.serialResPtrs f1 [20] i) m1 = .ok Mi ∧
            readBlock M (([20] : List Nat).getD j 0 + i * f1.nnz_out j)
                (f1.nnz_out j) =
              readBlock Mi (([20] : List Nat).getD j 0 + i * f1.nnz_out j)
                (f1.nnz_out j)) := by
  have hWf1 : ∀ ins j2, j2 < f1.n_out →
      ((s1.fval ins).getD j2 []).length = f1.nnz_out j2 := by
    intro ins j2 hj2
    have h1 : f1.n_out = 1 := rfl
    rw [h1] at hj2
    have h0 : j2 = 0 := by omega
    subst h0
    rfl
  have hInOut1 : ∀ j j2, j < f1.n_in → j2 < f1.n_out →
      ([20] : List Nat).getD j2 0 ≠ 0 →
      Disj (([10] : List Nat).getD j 0) (2 * f1.nnz_in j)
        (([20] : List Nat).getD j2 0) (2 * f1.nnz_out j2) := by
    intro j j2 hj hj2 h
    have e1 : f1.n_in = 1 := rfl
    have e2 : f1.n_out = 1 := rfl
    rw [e1] at hj
    rw [e2] at hj2
    have hj0 : j = 0 := by omega
    have hj20 : j2 = 0 := by omega
    subst hj0
    subst hj20
    decide
  have hOO1 : ∀ j j2, j < f1.n_out → j2 < f1.n_out → j ≠ j2 →
      ([20] : List Nat).getD j 0 ≠ 0 → ([20] : List Nat).getD j2 0 ≠ 0 →
      Disj (([20] : List Nat).getD j 0) (2 * f1.nnz_out j)
        (([20] : List Nat).getD j2 0) (2 * f1.nnz_out j2) := by
    intro j j2 hj hj2 hne _ _
    have e2 : f1.n_out = 1 := rfl
    rw [e2] at hj hj2
    have hj0 : j = 0 := by omega
    have hj20 : j2 = 0 := by omega
    subst hj0
    subst hj20
    exact absurd rfl hne
  exact ⟨hWf1, fun _ => rfl, by decide, hInOut1, hOO1,
    map_eval_blockwise Int f1 s1 2 [10] [20] m1 hWf1 (fun _ => rfl)
      (by decide) hInOut1 hOO1⟩

end CasadiMap
